import Mathlib

/-!
Shallow embedding of the arena allocator in `src/arena.h` (namespace `ktl`).

The arena is a singly linked list of regions; we model the chain reachable
from `begin` as a `List Region` and the `end` cursor as an `Option Nat`
index into that list (`none` models a null `end` pointer, and an empty list
models a null `begin` pointer).  A pointer returned by `arena_alloc` is a
pair (region index, word offset): regions never move in memory, the chain
only ever grows by appending and shrinks by dropping a suffix (`arena_trim`)
or everything (`arena_free`), so the index of a surviving region is stable
and two pointers are equal exactly when their (index, offset) pairs are.
Region payload bytes are modelled as a function from byte index to value.

Machine integers: `size_t` arithmetic that can overflow in the source is
modelled with an explicit `% 2 ^ 64` (see `regionByteSize`); the remaining
quantities (counts, capacities, indices) stay far below 2^64 in every claim
and are modelled as `Nat`.

Assertion failures that return `nullptr` (the `ktl_arena_assert` macro) and
null-pointer dereferences are modelled by `Option`: `none` is the
crash/failure outcome.  The backend (`malloc`/`mmap`/`VirtualAllocEx`) is
modelled as always succeeding, matching the abstraction level of the
claims, which never concern backend exhaustion.
-/

namespace ktl

/-- Bytes per word: `sizeof(uintptr_t)` on the 64-bit targets the header supports. -/
def wordSize : Nat := 8

/-- KTL_ARENA_REGION_DEFAULT_CAPACITY, in words. -/
def defaultCapacity : Nat := 8 * 1024

/-- `sizeof(Region)` on a 64-bit target: three 8-byte fields and an empty
flexible array member. -/
def sizeofRegion : Nat := 24

/-- One `Region`: used word count, word capacity, and payload bytes
(`data : byte index → byte value`; the flexible array member).  The `next`
link of the source struct is represented by adjacency in the arena's list. -/
@[ext]
structure Region where
  count : Nat
  capacity : Nat
  data : Nat → Nat

/-- A freshly created region: `new_region` sets `count = 0` and the given
capacity; payload contents are unspecified in C and fixed to zero here
(no claim depends on initial payload contents). -/
def mkRegion (capacity : Nat) : Region :=
  { count := 0, capacity := capacity, data := fun _ => 0 }

/-- The `Arena` struct: the chain from `begin` as a list, the `end` cursor as
an index (`none` = null), and the two KTL_ARENA_TRACING counters. -/
@[ext]
structure Arena where
  regions : List Region
  endIdx : Option Nat
  region_creations : Nat
  allocations_bigger_than_region_size : Nat

/-- A default-initialised `Arena`: both pointers null, counters zero. -/
def mkArena : Arena :=
  { regions := [], endIdx := none, region_creations := 0
    allocations_bigger_than_region_size := 0 }

/-- The `ArenaSnapshot` struct: the captured `end` region (as an index,
`none` = null) and its used count at capture time. -/
structure ArenaSnapshot where
  region : Option Nat
  count : Nat

/-- An allocation result: (region index, word offset) — the address
`&region.data[offset]`. -/
abbrev Ptr := Nat × Nat

/-- `size_t size = (bytes + sizeof(uintptr_t) - 1) / sizeof(uintptr_t)` —
round a byte count up to words. -/
def roundWords (bytes : Nat) : Nat := (bytes + wordSize - 1) / wordSize

/-- Region lookup by index.  The C code dereferences region pointers without
bounds checks; every claim is proved under validity hypotheses that keep the
index in range, and the default value only totalises the function. -/
def regionAt (rs : List Region) (e : Nat) : Region := (rs[e]?).getD (mkRegion 0)

/-- Structural worker for `walkEnd`: the fuel argument is `rs.length - e`,
which strictly bounds the number of loop iterations, so the loop is
primitive recursion and evaluates inside the kernel. -/
def walkEndGo (rs : List Region) (size : Nat) : Nat → Nat → Nat
  | 0, e => e
  | Nat.succ fuel, e =>
    if (regionAt rs e).count + size > (regionAt rs e).capacity ∧ e + 1 < rs.length then
      walkEndGo rs size fuel (e + 1)
    else e

/-- The forward scan of `arena_alloc`:
`while (end->count + size > end->capacity && end->next != nullptr) end = end->next;`.
`e + 1 < rs.length` is exactly `end->next != nullptr`. -/
def walkEnd (rs : List Region) (size : Nat) (e : Nat) : Nat :=
  walkEndGo rs size (rs.length - e) e

/-- The tail of `arena_alloc`:
`result = &end->data[end->count]; end->count += size;` at region index `e`. -/
def carve (a : Arena) (e : Nat) (size : Nat) : Option Ptr × Arena :=
  let r := regionAt a.regions e
  (some (e, r.count),
    { a with regions := a.regions.set e { r with count := r.count + size } })

/-- `arena_alloc` after the empty-arena branch: scan forward from `end`,
append a region of capacity `max(default, size)` if still no room (the
source asserts `!a->end->next` there, which the scan guarantees), then carve. -/
def allocInRegions (a : Arena) (size : Nat) : Option Ptr × Arena :=
  match a.endIdx with
  | none => (none, a)
  | some e0 =>
    let e1 := walkEnd a.regions size e0
    let r1 := regionAt a.regions e1
    if r1.count + size > r1.capacity then
      if e1 + 1 = a.regions.length then
        carve
          { a with
              regions := a.regions ++ [mkRegion (if defaultCapacity < size then size else defaultCapacity)]
              region_creations := a.region_creations + 1
              endIdx := some (e1 + 1) }
          (e1 + 1) size
      else (none, a)
    else carve { a with endIdx := some e1 } e1 size

/-- `arena_alloc(a, bytes)`.  If `end` is null the source asserts `!a->begin`
(failure returns `nullptr`), creates the first region with capacity
`max(default, size)`, and bumps `allocations_bigger_than_region_size`
exactly when `default < size`; then the common path runs. -/
def arena_alloc (a : Arena) (bytes : Nat) : Option Ptr × Arena :=
  let size := roundWords bytes
  match a.endIdx with
  | none =>
    if a.regions.isEmpty then
      allocInRegions
        { regions := [mkRegion (if defaultCapacity < size then size else defaultCapacity)]
          endIdx := some 0
          region_creations := a.region_creations + 1
          allocations_bigger_than_region_size :=
            if defaultCapacity < size then a.allocations_bigger_than_region_size + 1
            else a.allocations_bigger_than_region_size }
        size
    else (none, a)
  | some _ => allocInRegions a size

/-- Read byte `i` of the allocation at `p`: byte `p.2 * wordSize + i` of
region `p.1`'s payload. -/
def readByte (a : Arena) (p : Ptr) (i : Nat) : Nat :=
  (regionAt a.regions p.1).data (p.2 * wordSize + i)

/-- Write byte `i` of the allocation at `p`. -/
def writeByte (a : Arena) (p : Ptr) (i : Nat) (v : Nat) : Arena :=
  let r := regionAt a.regions p.1
  { a with
      regions := a.regions.set p.1
        { r with data := fun j => if j = p.2 * wordSize + i then v else r.data j } }

/-- Structural worker for `copyBytesFrom`, with fuel `n - i`. -/
def copyBytesGo (dst src : Ptr) (n : Nat) : Nat → Nat → Arena → Arena
  | 0, _, a => a
  | Nat.succ fuel, i, a =>
    if i < n then copyBytesGo dst src n fuel (i + 1) (writeByte a dst i (readByte a src i))
    else a

/-- The copy loop of `arena_realloc`:
`for (i = 0; i < n; ++i) newptr_char[i] = oldptr_char[i];` from index `i` up. -/
def copyBytesFrom (dst src : Ptr) (n : Nat) (i : Nat) (a : Arena) : Arena :=
  copyBytesGo dst src n (n - i) i a

/-- `arena_realloc(a, oldptr, oldsz, newsz)`.  `newsz ≤ oldsz` returns
`oldptr` with the arena untouched; otherwise allocate `newsz` fresh and copy
the first `oldsz` bytes. -/
def arena_realloc (a : Arena) (oldptr : Ptr) (oldsz newsz : Nat) : Option Ptr × Arena :=
  if newsz ≤ oldsz then (some oldptr, a)
  else
    match arena_alloc a newsz with
    | (none, a1) => (none, a1)
    | (some newptr, a1) => (some newptr, copyBytesFrom newptr oldptr oldsz 0 a1)

/-- `arena_snapshot(a)`: capture `end` and its count (`none` and 0 when `end`
is null; the source's `ktl_assert(!a->begin)` there does not alter control
flow).  The source only reads through `a`, so the arena is unchanged. -/
def arena_snapshot (a : Arena) : ArenaSnapshot :=
  match a.endIdx with
  | none => { region := none, count := 0 }
  | some e => { region := some e, count := (regionAt a.regions e).count }

/-- The reset loop: `for (r = begin; r; r = r->next) r->count = 0;`. -/
def zeroCounts (rs : List Region) : List Region :=
  rs.map fun r => { r with count := 0 }

/-- `arena_reset(a)`: zero every region's count and set `end = begin`. -/
def arena_reset (a : Arena) : Arena :=
  { a with
      regions := zeroCounts a.regions
      endIdx := if a.regions.isEmpty then none else some 0 }

/-- The rewind writes: `s.region->count = s.count` and
`for (r = s.region->next; r; r = r->next) r->count = 0;` with the snapshot
region at index `i` of the chain. -/
def rewindRegions (rs : List Region) (i : Nat) (c : Nat) : List Region :=
  match rs, i with
  | [], _ => []
  | r :: rest, 0 => { r with count := c } :: zeroCounts rest
  | r :: rest, Nat.succ j => r :: rewindRegions rest j c

/-- `arena_rewind(a, s)`: a null snapshot region resets; otherwise restore the
snapshot region's count, zero every later region, and set `end` to it. -/
def arena_rewind (a : Arena) (s : ArenaSnapshot) : Arena :=
  match s.region with
  | none => arena_reset a
  | some i =>
    { a with regions := rewindRegions a.regions i s.count, endIdx := some i }

/-- `arena_free(a)`: release every region and null both pointers.  The
tracing counters are not touched by the source. -/
def arena_free (a : Arena) : Arena :=
  { a with regions := [], endIdx := none }

/-- `arena_trim(a)` begins with `Region* r = a->end->next;`, an unguarded
dereference of `a->end`: a null `end` is a crash (`none`).  Otherwise every
region after `end` is released and `end->next` is cleared, i.e. the chain is
truncated just after the cursor. -/
def arena_trim (a : Arena) : Option Arena :=
  match a.endIdx with
  | none => none
  | some e => some { a with regions := a.regions.take (e + 1) }

/-- Run a sequence of allocations, collecting the returned pointers. -/
def allocMany (a : Arena) (sizes : List Nat) : List (Option Ptr) × Arena :=
  match sizes with
  | [] => ([], a)
  | b :: rest =>
    let pa := arena_alloc a b
    let psa := allocMany pa.2 rest
    (pa.1 :: psa.1, psa.2)

/-- The `size_t` byte count computed by every `new_region` backend:
`sizeof(Region) + sizeof(uintptr_t) * capacity`, with the unchecked
multiplication and addition wrapping modulo 2^64 as `size_t` does. -/
def regionByteSize (capacity : Nat) : Nat :=
  (sizeofRegion + wordSize * capacity) % 2 ^ 64

/-- `detail::new_region(capacity)`: computes `regionByteSize capacity`,
obtains that many bytes from the backend (modelled as succeeding), and
initialises the header.  No overflow check appears between the size
computation and the backend call, so creation succeeds for every capacity. -/
def new_region (capacity : Nat) : Option Region := some (mkRegion capacity)

/-- libc backend `free_region(r)`: `free(r)`; `free(NULL)` is a no-op, so the
call is defined for every argument (`none` models a null region). -/
def free_region_libc (r : Option Region) : Option Unit :=
  match r with
  | none => some ()
  | some _ => some ()

/-- Windows backend `free_region(r)`: guarded by
`if (!r || r == INVALID_HANDLE_VALUE) return;`, then `VirtualFreeEx`. -/
def free_region_win (r : Option Region) : Option Unit :=
  match r with
  | none => some ()
  | some _ => some ()

/-- Unix backend `free_region(r)`: computes
`sizeof(Region) + sizeof(uintptr_t) * r->capacity` before any null check —
a null `r` is dereferenced (`none` = crash) — then `munmap(r, size)`. -/
def free_region_unix (r : Option Region) : Option Unit :=
  match r with
  | none => none
  | some _ => some ()

/-- Reachability invariant of the arena API: `begin` and `end` are null
together, `end` is in range, and every region strictly after `end` has a
zero count. -/
structure Valid (a : Arena) : Prop where
  empty_iff : a.regions = [] ↔ a.endIdx = none
  end_lt : ∀ e, a.endIdx = some e → e < a.regions.length
  after_zero : ∀ e, a.endIdx = some e → ∀ i, e < i → i < a.regions.length →
    (regionAt a.regions i).count = 0

/-- The `end` cursor as a number (0 for an empty arena). -/
def endVal (a : Arena) : Nat := a.endIdx.getD 0

/-- `b` is a state reachable from `a` by allocations: the chain only grew,
capacities and payloads of `a`'s regions are untouched, regions strictly
before `a`'s cursor are untouched entirely, and the cursor moved forward. -/
structure Extends (a b : Arena) : Prop where
  len_le : a.regions.length ≤ b.regions.length
  cap_eq : ∀ i, i < a.regions.length →
    (regionAt b.regions i).capacity = (regionAt a.regions i).capacity
  data_eq : ∀ i, i < a.regions.length →
    (regionAt b.regions i).data = (regionAt a.regions i).data
  pre_eq : ∀ i, i < endVal a → regionAt b.regions i = regionAt a.regions i
  end_le : endVal a ≤ endVal b
  end_some : a.endIdx.isSome → b.endIdx.isSome

/-- The byte range `[p.2 * wordSize, p.2 * wordSize + n)` of region `p.1`
is inside the used part of a live region: what it means for `p` to be (the
address of) a live allocation of `n` bytes. -/
def liveRange (a : Arena) (p : Ptr) (n : Nat) : Prop :=
  p.1 < a.regions.length ∧
  p.2 * wordSize + n ≤ (regionAt a.regions p.1).count * wordSize

/-- Every region surviving from `a` to `b` has unchanged payload bytes. -/
def dataPreserved (a b : Arena) : Prop :=
  ∀ i, i < a.regions.length → i < b.regions.length →
    (regionAt b.regions i).data = (regionAt a.regions i).data

/-- The word offsets at which a run of allocations of the given byte sizes
is carved from a single region, starting at used count `c`. -/
def bumpOffsets (c : Nat) : List Nat → List Nat
  | [] => []
  | b :: rest => c :: bumpOffsets (c + roundWords b) rest

/-- The loop equation of `walkEnd`: one iteration of the scan. -/
lemma walkEnd_eq (rs : List Region) (size e : Nat) :
    walkEnd rs size e =
      if (regionAt rs e).count + size > (regionAt rs e).capacity ∧ e + 1 < rs.length then
        walkEnd rs size (e + 1)
      else e := by
  unfold walkEnd
  cases hfuel : rs.length - e with
  | zero =>
    rw [if_neg (by omega)]
    rfl
  | succ fuel =>
    show walkEndGo rs size (Nat.succ fuel) e = _
    rw [walkEndGo]
    by_cases hc : (regionAt rs e).count + size > (regionAt rs e).capacity ∧ e + 1 < rs.length
    · rw [if_pos hc, if_pos hc]
      have : rs.length - (e + 1) = fuel := by omega
      rw [this]
    · rw [if_neg hc, if_neg hc]

/-- The loop equation of `copyBytesFrom`: one iteration of the copy. -/
lemma copyBytesFrom_eq (dst src : Ptr) (n i : Nat) (a : Arena) :
    copyBytesFrom dst src n i a =
      if i < n then copyBytesFrom dst src n (i + 1) (writeByte a dst i (readByte a src i))
      else a := by
  unfold copyBytesFrom
  cases hfuel : n - i with
  | zero =>
    rw [if_neg (by omega)]
    rfl
  | succ fuel =>
    show copyBytesGo dst src n (Nat.succ fuel) i a = _
    rw [copyBytesGo]
    by_cases hc : i < n
    · rw [if_pos hc, if_pos hc]
      have : n - (i + 1) = fuel := by omega
      rw [this]
    · rw [if_neg hc, if_neg hc]

lemma regionAt_of_lt (rs : List Region) (e : Nat) (h : e < rs.length) :
    rs[e]? = some (regionAt rs e) := by
  simp [regionAt, List.getElem?_eq_getElem h]

lemma regionAt_append_left (rs ts : List Region) (e : Nat) (h : e < rs.length) :
    regionAt (rs ++ ts) e = regionAt rs e := by
  simp [regionAt, List.getElem?_append, h]

lemma regionAt_append_right (rs ts : List Region) (e : Nat) (h : rs.length ≤ e) :
    regionAt (rs ++ ts) e = regionAt ts (e - rs.length) := by
  simp [regionAt, List.getElem?_append, Nat.not_lt.2 h]

lemma regionAt_set_ne (rs : List Region) (e j : Nat) (r : Region) (h : e ≠ j) :
    regionAt (rs.set e r) j = regionAt rs j := by
  simp [regionAt, List.getElem?_set, h]

lemma regionAt_set_self (rs : List Region) (e : Nat) (r : Region) (h : e < rs.length) :
    regionAt (rs.set e r) e = r := by
  simp [regionAt, List.getElem?_set, h]

lemma set_append_singleton (rs : List Region) (x y : Region) :
    (rs ++ [x]).set rs.length y = rs ++ [y] := by
  induction rs with
  | nil => rfl
  | cons r rest ih => simp [List.set, ih]

lemma walkEnd_ge (rs : List Region) (size e : Nat) : e ≤ walkEnd rs size e := by
  rw [walkEnd_eq]
  split
  · exact le_trans (Nat.le_succ e) (walkEnd_ge rs size (e + 1))
  · exact le_refl e
termination_by rs.length - e
decreasing_by omega

lemma walkEnd_lt (rs : List Region) (size e : Nat) (h : e < rs.length) :
    walkEnd rs size e < rs.length := by
  rw [walkEnd_eq]
  split
  · exact walkEnd_lt rs size (e + 1) (by omega)
  · exact h
termination_by rs.length - e
decreasing_by omega

lemma walkEnd_stop (rs : List Region) (size e : Nat) :
    (regionAt rs (walkEnd rs size e)).count + size ≤ (regionAt rs (walkEnd rs size e)).capacity
      ∨ rs.length ≤ walkEnd rs size e + 1 := by
  rw [walkEnd_eq]
  split
  · exact walkEnd_stop rs size (e + 1)
  · rename_i h
    by_cases hc : (regionAt rs e).count + size > (regionAt rs e).capacity
    · right; omega
    · left; omega
termination_by rs.length - e
decreasing_by omega

lemma walkEnd_append_of_room (rs ts : List Region) (size e : Nat) (he : e < rs.length)
    (hroom : (regionAt rs (walkEnd rs size e)).count + size
              ≤ (regionAt rs (walkEnd rs size e)).capacity) :
    walkEnd (rs ++ ts) size e = walkEnd rs size e := by
  by_cases hstep : (regionAt rs e).count + size > (regionAt rs e).capacity ∧ e + 1 < rs.length
  · have h1 : walkEnd rs size e = walkEnd rs size (e + 1) := by
      rw [walkEnd_eq]; rw [if_pos hstep]
    have h2 : walkEnd (rs ++ ts) size e = walkEnd (rs ++ ts) size (e + 1) := by
      rw [walkEnd_eq]
      rw [if_pos]
      rw [regionAt_append_left rs ts e he]
      refine ⟨hstep.1, ?_⟩
      simp only [List.length_append]
      omega
    rw [h1] at hroom ⊢
    rw [h2]
    exact walkEnd_append_of_room rs ts size (e + 1) hstep.2 hroom
  · have h1 : walkEnd rs size e = e := by
      rw [walkEnd_eq]; rw [if_neg hstep]
    rw [h1] at hroom ⊢
    rw [walkEnd_eq]
    rw [if_neg]
    rw [regionAt_append_left rs ts e he]
    omega
termination_by rs.length - e
decreasing_by omega

lemma walkEnd_append_of_full (rs : List Region) (t : Region) (ts : List Region) (size e : Nat)
    (he : e < rs.length)
    (hfull : (regionAt rs (walkEnd rs size e)).capacity
              < (regionAt rs (walkEnd rs size e)).count + size)
    (ht : t.count + size ≤ t.capacity) :
    walkEnd (rs ++ t :: ts) size e = rs.length := by
  by_cases hstep : (regionAt rs e).count + size > (regionAt rs e).capacity ∧ e + 1 < rs.length
  · have h1 : walkEnd rs size e = walkEnd rs size (e + 1) := by
      rw [walkEnd_eq]; rw [if_pos hstep]
    have h2 : walkEnd (rs ++ t :: ts) size e = walkEnd (rs ++ t :: ts) size (e + 1) := by
      rw [walkEnd_eq]
      rw [if_pos]
      rw [regionAt_append_left rs (t :: ts) e he]
      refine ⟨hstep.1, ?_⟩
      simp only [List.length_append]
      omega
    rw [h1] at hfull
    rw [h2]
    exact walkEnd_append_of_full rs t ts size (e + 1) hstep.2 hfull ht
  · have h1 : walkEnd rs size e = e := by
      rw [walkEnd_eq]; rw [if_neg hstep]
    rw [h1] at hfull
    have hnext : e + 1 = rs.length := by omega
    have h2 : walkEnd (rs ++ t :: ts) size e = walkEnd (rs ++ t :: ts) size (e + 1) := by
      rw [walkEnd_eq]
      rw [if_pos]
      rw [regionAt_append_left rs (t :: ts) e he]
      refine ⟨by omega, ?_⟩
      simp only [List.length_append, List.length_cons]
      omega
    have h3 : walkEnd (rs ++ t :: ts) size (e + 1) = e + 1 := by
      rw [walkEnd_eq]
      rw [if_neg]
      rw [hnext, regionAt_append_right rs (t :: ts) rs.length (le_refl _)]
      simp only [Nat.sub_self]
      intro hcontra
      have : regionAt (t :: ts) 0 = t := by simp [regionAt]
      rw [this] at hcontra
      omega
    rw [h2, h3, hnext]
termination_by rs.length - e
decreasing_by omega

lemma arena_alloc_of_some (a : Arena) (e0 : Nat) (he : a.endIdx = some e0) (bytes : Nat) :
    arena_alloc a bytes = allocInRegions a (roundWords bytes) := by
  unfold arena_alloc
  rw [he]

lemma allocInRegions_of_room (a : Arena) (size e0 : Nat) (he : a.endIdx = some e0)
    (hroom : (regionAt a.regions (walkEnd a.regions size e0)).count + size
              ≤ (regionAt a.regions (walkEnd a.regions size e0)).capacity) :
    allocInRegions a size =
      (some (walkEnd a.regions size e0, (regionAt a.regions (walkEnd a.regions size e0)).count),
        { a with
            regions := a.regions.set (walkEnd a.regions size e0)
              { regionAt a.regions (walkEnd a.regions size e0) with
                  count := (regionAt a.regions (walkEnd a.regions size e0)).count + size }
            endIdx := some (walkEnd a.regions size e0) }) := by
  unfold allocInRegions
  rw [he]
  simp only [gt_iff_lt]
  rw [if_neg (by omega)]
  rfl

lemma allocInRegions_of_full (a : Arena) (size e0 : Nat) (he : a.endIdx = some e0)
    (he0 : e0 < a.regions.length)
    (hfull : (regionAt a.regions (walkEnd a.regions size e0)).capacity
              < (regionAt a.regions (walkEnd a.regions size e0)).count + size) :
    allocInRegions a size =
      (some (a.regions.length, 0),
        { a with
            regions := a.regions ++
              [{ count := size
                 capacity := if defaultCapacity < size then size else defaultCapacity
                 data := fun _ => 0 }]
            region_creations := a.region_creations + 1
            endIdx := some a.regions.length }) := by
  have hlt := walkEnd_lt a.regions size e0 he0
  have hstop := walkEnd_stop a.regions size e0
  have hlast : walkEnd a.regions size e0 + 1 = a.regions.length := by omega
  unfold allocInRegions
  rw [he]
  simp only [gt_iff_lt]
  rw [if_pos hfull, if_pos hlast]
  unfold carve
  rw [hlast]
  rw [regionAt_append_right a.regions _ a.regions.length (le_refl _)]
  simp only [Nat.sub_self]
  have hr0 : regionAt [mkRegion (if defaultCapacity < size then size else defaultCapacity)] 0
      = mkRegion (if defaultCapacity < size then size else defaultCapacity) := by
    simp [regionAt]
  rw [hr0]
  rw [set_append_singleton]
  simp [mkRegion]

lemma arena_alloc_of_empty (a : Arena) (h0 : a.regions = []) (h1 : a.endIdx = none) (bytes : Nat) :
    arena_alloc a bytes =
      (some (0, 0),
        { regions := [{ count := roundWords bytes
                        capacity := if defaultCapacity < roundWords bytes then roundWords bytes
                                    else defaultCapacity
                        data := fun _ => 0 }]
          endIdx := some 0
          region_creations := a.region_creations + 1
          allocations_bigger_than_region_size :=
            if defaultCapacity < roundWords bytes then a.allocations_bigger_than_region_size + 1
            else a.allocations_bigger_than_region_size }) := by
  unfold arena_alloc
  rw [h1]
  rw [h0]
  simp only [List.isEmpty_nil, if_true]
  set size := roundWords bytes with hsz
  set cap := if defaultCapacity < size then size else defaultCapacity with hcap
  have hcapge : size ≤ cap := by
    rw [hcap]; split <;> omega
  set a1 : Arena :=
    { regions := [mkRegion cap]
      endIdx := some 0
      region_creations := a.region_creations + 1
      allocations_bigger_than_region_size :=
        if defaultCapacity < size then a.allocations_bigger_than_region_size + 1
        else a.allocations_bigger_than_region_size } with ha1
  have hw : walkEnd a1.regions size 0 = 0 := by
    rw [walkEnd_eq]
    rw [if_neg]
    rw [ha1]
    simp
  have hr : regionAt a1.regions 0 = mkRegion cap := by
    rw [ha1]; simp [regionAt]
  have := allocInRegions_of_room a1 size 0 (by rw [ha1]) (by rw [hw, hr]; simpa [mkRegion])
  rw [hw, hr] at this
  rw [this]
  rw [ha1]
  simp [mkRegion]

lemma Valid_mkArena : Valid mkArena := by
  constructor
  · simp [mkArena]
  · intro e h; simp [mkArena] at h
  · intro e h; simp [mkArena] at h

lemma Extends_refl (a : Arena) : Extends a a := by
  constructor
  · exact le_refl _
  · intro i _; rfl
  · intro i _; rfl
  · intro i _; rfl
  · exact le_refl _
  · exact fun h => h

lemma Extends_trans {a b c : Arena} (h1 : Extends a b) (h2 : Extends b c) : Extends a c := by
  constructor
  · exact le_trans h1.len_le h2.len_le
  · intro i hi
    rw [h2.cap_eq i (lt_of_lt_of_le hi h1.len_le), h1.cap_eq i hi]
  · intro i hi
    rw [h2.data_eq i (lt_of_lt_of_le hi h1.len_le), h1.data_eq i hi]
  · intro i hi
    rw [h2.pre_eq i (lt_of_lt_of_le hi h1.end_le), h1.pre_eq i hi]
  · exact le_trans h1.end_le h2.end_le
  · exact fun h => h2.end_some (h1.end_some h)

lemma arena_alloc_mono (a : Arena) (bytes : Nat) (hV : Valid a) :
    ∃ p a1, arena_alloc a bytes = (some p, a1) ∧ Valid a1 ∧ Extends a a1 := by
  cases he : a.endIdx with
  | none =>
    have h0 : a.regions = [] := hV.empty_iff.2 he
    refine ⟨(0, 0), _, arena_alloc_of_empty a h0 he bytes, ?_, ?_⟩
    · constructor
      · simp
      · intro e h
        simp only [Option.some.injEq] at h
        simp [← h]
      · intro e h i h1 h2
        simp only [Option.some.injEq] at h
        simp only [List.length_cons, List.length_nil] at h2
        omega
    · constructor
      · simp [h0]
      · intro i hi; simp [h0] at hi
      · intro i hi; simp [h0] at hi
      · intro i hi; simp [endVal, he] at hi
      · simp [endVal, he]
      · intro h; simp [he] at h
  | some e0 =>
    have he0 : e0 < a.regions.length := hV.end_lt e0 he
    have hne : a.regions ≠ [] := by
      intro hc; rw [hc] at he0; simp at he0
    set size := roundWords bytes with hsz
    set e1 := walkEnd a.regions size e0 with he1
    have hee : e0 ≤ e1 := walkEnd_ge a.regions size e0
    have hlt : e1 < a.regions.length := walkEnd_lt a.regions size e0 he0
    rw [arena_alloc_of_some a e0 he bytes, ← hsz]
    by_cases hroom : (regionAt a.regions e1).count + size ≤ (regionAt a.regions e1).capacity
    · rw [allocInRegions_of_room a size e0 he (by rw [← he1]; exact hroom)]
      refine ⟨_, _, rfl, ?_, ?_⟩
      · constructor
        · simp only [List.length_set] at *
          constructor
          · intro hc
            exact absurd hc (by simpa using List.ne_nil_of_length_pos (by omega))
          · intro hc; simp at hc
        · intro e h
          simp only [Option.some.injEq] at h
          simp only [List.length_set]
          omega
        · intro e h i h1 h2
          simp only [Option.some.injEq] at h
          subst h
          simp only [List.length_set] at h2
          rw [regionAt_set_ne _ _ _ _ (by omega)]
          exact hV.after_zero e0 he i (by omega) h2
      · constructor
        · simp
        · intro i hi
          by_cases hie : e1 = i
          · subst hie; rw [regionAt_set_self _ _ _ hlt]
          · rw [regionAt_set_ne _ _ _ _ hie]
        · intro i hi
          by_cases hie : e1 = i
          · subst hie; rw [regionAt_set_self _ _ _ hlt]
          · rw [regionAt_set_ne _ _ _ _ hie]
        · intro i hi
          simp only [endVal, he, Option.getD_some] at hi
          rw [regionAt_set_ne _ _ _ _ (by omega)]
        · simp [endVal, he]; omega
        · intro _; simp
    · rw [allocInRegions_of_full a size e0 he he0 (by rw [← he1]; omega)]
      refine ⟨_, _, rfl, ?_, ?_⟩
      · constructor
        · constructor
          · intro hc; simp at hc
          · intro hc; simp at hc
        · intro e h
          simp only [Option.some.injEq] at h
          simp only [List.length_append, List.length_cons, List.length_nil]
          omega
        · intro e h i h1 h2
          simp only [Option.some.injEq] at h
          simp only [List.length_append, List.length_cons, List.length_nil] at h2
          omega
      · constructor
        · simp
        · intro i hi; rw [regionAt_append_left _ _ _ hi]
        · intro i hi; rw [regionAt_append_left _ _ _ hi]
        · intro i hi
          simp only [endVal, he, Option.getD_some] at hi
          rw [regionAt_append_left _ _ _ (by omega)]
        · simp [endVal, he]; omega
        · intro _; simp

lemma allocMany_mono (sizes : List Nat) (a : Arena) (hV : Valid a) :
    Valid (allocMany a sizes).2 ∧ Extends a (allocMany a sizes).2 ∧
      ∀ p ∈ (allocMany a sizes).1, p.isSome := by
  induction sizes generalizing a with
  | nil => exact ⟨hV, Extends_refl a, by simp [allocMany]⟩
  | cons b rest ih =>
    obtain ⟨p, a1, halloc, hV1, hext⟩ := arena_alloc_mono a b hV
    have hrest := ih a1 hV1
    simp only [allocMany, halloc]
    refine ⟨hrest.1, Extends_trans hext hrest.2.1, ?_⟩
    intro q hq
    simp only [List.mem_cons] at hq
    rcases hq with hq | hq
    · subst hq; rfl
    · exact hrest.2.2 q hq


lemma Region.eq_of_fields {x y : Region} (h1 : x.count = y.count)
    (h2 : x.capacity = y.capacity) (h3 : x.data = y.data) : x = y := by
  cases x; cases y
  cases h1; cases h2; cases h3
  rfl

lemma set_append_left (l r : List Region) (i : Nat) (v : Region) (h : i < l.length) :
    (l ++ r).set i v = l.set i v ++ r := by
  induction l generalizing i with
  | nil => simp at h
  | cons x xs ih =>
    cases i with
    | zero => simp [List.set]
    | succ j =>
      simp only [List.cons_append, List.set, List.append_eq, List.cons.injEq, true_and]
      rw [ih j (by simpa using h)]

lemma set_append_boundary (l : List Region) (x : Region) (r : List Region) (v : Region) :
    (l ++ x :: r).set l.length v = l ++ v :: r := by
  induction l with
  | nil => simp [List.set]
  | cons y ys ih => simp [List.set, ih]

lemma zeroCounts_length (rs : List Region) : (zeroCounts rs).length = rs.length := by
  simp [zeroCounts]

lemma regionAt_zeroCounts (rs : List Region) (i : Nat) (h : i < rs.length) :
    regionAt (zeroCounts rs) i = { regionAt rs i with count := 0 } := by
  simp only [regionAt, zeroCounts, List.getElem?_map]
  rw [List.getElem?_eq_getElem h]
  rfl

lemma rewindRegions_length (rs : List Region) (i c : Nat) :
    (rewindRegions rs i c).length = rs.length := by
  induction rs generalizing i with
  | nil => rfl
  | cons r rest ih =>
    cases i with
    | zero => simp [rewindRegions, zeroCounts_length]
    | succ j => simp [rewindRegions, ih j]

lemma regionAt_cons_zero (x : Region) (xs : List Region) : regionAt (x :: xs) 0 = x := by
  simp [regionAt]

lemma regionAt_cons_succ (x : Region) (xs : List Region) (k : Nat) :
    regionAt (x :: xs) (k + 1) = regionAt xs k := by
  simp [regionAt]

lemma regionAt_drop (rs : List Region) (n k : Nat) :
    regionAt (rs.drop n) k = regionAt rs (n + k) := by
  simp [regionAt, List.getElem?_drop]

lemma regionAt_rewindRegions (rs : List Region) (i c j : Nat) (hj : j < rs.length) :
    regionAt (rewindRegions rs i c) j =
      if j < i then regionAt rs j
      else { count := if j = i then c else 0
             capacity := (regionAt rs j).capacity
             data := (regionAt rs j).data } := by
  induction rs generalizing i j with
  | nil => simp at hj
  | cons r rest ih =>
    cases i with
    | zero =>
      cases j with
      | zero =>
        rw [show rewindRegions (r :: rest) 0 c = { r with count := c } :: zeroCounts rest
          from rfl]
        rw [regionAt_cons_zero, regionAt_cons_zero]
        rw [if_neg (by omega)]
        refine Region.eq_of_fields ?_ ?_ ?_ <;> simp
      | succ k =>
        have hk : k < rest.length := by simpa using hj
        rw [show rewindRegions (r :: rest) 0 c = { r with count := c } :: zeroCounts rest
          from rfl]
        rw [regionAt_cons_succ, regionAt_cons_succ, regionAt_zeroCounts rest k hk]
        rw [if_neg (by omega), if_neg (by omega)]
    | succ m =>
      cases j with
      | zero =>
        have hc : (0 : Nat) < m + 1 := by omega
        rw [show rewindRegions (r :: rest) (m + 1) c = r :: rewindRegions rest m c from rfl]
        rw [regionAt_cons_zero, regionAt_cons_zero, if_pos hc]
      | succ k =>
        have hk : k < rest.length := by simpa using hj
        rw [show rewindRegions (r :: rest) (m + 1) c = r :: rewindRegions rest m c from rfl]
        rw [regionAt_cons_succ, regionAt_cons_succ, ih m k hk]
        simp only [Nat.add_lt_add_iff_right, Nat.add_right_cancel_iff]

lemma rewind_snapshot_of_none (X S : Arena) (he : X.endIdx = none) :
    arena_rewind S (arena_snapshot X) = arena_reset S := by
  unfold arena_snapshot
  rw [he]
  rfl

lemma rewind_snapshot_ext (X S : Arena) (e0 : Nat) (hV : Valid X) (he : X.endIdx = some e0)
    (hext : Extends X S) :
    arena_rewind S (arena_snapshot X) =
      { regions := X.regions ++ zeroCounts (S.regions.drop X.regions.length)
        endIdx := some e0
        region_creations := S.region_creations
        allocations_bigger_than_region_size := S.allocations_bigger_than_region_size } := by
  have he0 : e0 < X.regions.length := hV.end_lt e0 he
  have hlen : X.regions.length ≤ S.regions.length := hext.len_le
  have hsnap : arena_snapshot X =
      { region := some e0, count := (regionAt X.regions e0).count } := by
    unfold arena_snapshot
    rw [he]
  rw [hsnap]
  unfold arena_rewind
  simp only []
  ext1
  case regions =>
    have hlenR : ∀ j : Nat,
        (X.regions ++ zeroCounts (S.regions.drop X.regions.length)).length
          = S.regions.length := by
      intro j
      simp only [List.length_append, zeroCounts_length, List.length_drop]
      omega
    apply List.ext_getElem?
    intro j
    by_cases hj : j < S.regions.length
    · rw [regionAt_of_lt _ j (by rw [rewindRegions_length]; exact hj)]
      rw [regionAt_of_lt _ j (by rw [hlenR j]; exact hj)]
      rw [regionAt_rewindRegions S.regions e0 _ j hj]
      congr 1
      by_cases hjX : j < X.regions.length
      · rw [regionAt_append_left _ _ _ hjX]
        by_cases hlt : j < e0
        · rw [if_pos hlt]
          exact hext.pre_eq j (by simp only [endVal, he, Option.getD_some]; omega)
        · rw [if_neg hlt]
          refine Region.eq_of_fields ?_ ?_ ?_
          · by_cases heq : j = e0
            · subst heq
              simp
            · rw [if_neg heq]
              exact (hV.after_zero e0 he j (by omega) hjX).symm
          · exact hext.cap_eq j hjX
          · exact hext.data_eq j hjX
      · rw [regionAt_append_right _ _ _ (by omega)]
        rw [regionAt_zeroCounts _ _ (by simp only [List.length_drop]; omega)]
        rw [regionAt_drop]
        rw [show X.regions.length + (j - X.regions.length) = j by omega]
        rw [if_neg (by omega)]
        refine Region.eq_of_fields ?_ ?_ ?_
        · rw [if_neg (by omega)]
        · rfl
        · rfl
    · rw [List.getElem?_eq_none (le_of_not_lt (by rw [rewindRegions_length]; exact hj))]
      rw [List.getElem?_eq_none (le_of_not_lt (by rw [hlenR j]; exact hj))]
  case endIdx => rfl
  case region_creations => rfl
  case allocations_bigger_than_region_size => rfl

lemma zeroCounts_cons (x : Region) (l : List Region) :
    zeroCounts (x :: l) = { x with count := 0 } :: zeroCounts l := rfl

lemma set_zero_cons (x y : Region) (l : List Region) : (x :: l).set 0 y = y :: l := rfl

lemma alloc_rewind_step_empty (X S X1 : Arena) (bytes : Nat) (p : Ptr) (hV : Valid X)
    (he : X.endIdx = none)
    (halloc : arena_alloc X bytes = (some p, X1))
    (hV1 : Valid X1) (hext : Extends X1 S) :
    arena_alloc (arena_rewind S (arena_snapshot X)) bytes
      = (some p, arena_rewind S (arena_snapshot X1)) := by
  have h0 : X.regions = [] := hV.empty_iff.2 he
  have hform := arena_alloc_of_empty X h0 he bytes
  rw [halloc] at hform
  injection hform with h1 h2
  injection h1 with h1
  subst h1
  subst h2
  set size := roundWords bytes with hsz
  set cap := if defaultCapacity < size then size else defaultCapacity with hcap
  have hszcap : size ≤ cap := by
    rw [hcap]; split <;> omega
  rw [rewind_snapshot_of_none X S he]
  rw [rewind_snapshot_ext _ S 0 hV1 rfl hext]
  have hSlen : 1 ≤ S.regions.length := le_trans (by simp) hext.len_le
  obtain ⟨s0, rest, hcons⟩ :=
    List.exists_cons_of_ne_nil (List.ne_nil_of_length_pos (show 0 < S.regions.length by omega))
  have hie : S.regions.isEmpty = false := by rw [hcons]; rfl
  have hreset : arena_reset S = { S with regions := zeroCounts S.regions, endIdx := some 0 } := by
    unfold arena_reset
    rw [hie]
    rfl
  rw [hreset]
  have hcapS : (regionAt S.regions 0).capacity = cap := by
    rw [hext.cap_eq 0 (by simp)]
    rfl
  have hdataS : (regionAt S.regions 0).data = fun _ => 0 := by
    rw [hext.data_eq 0 (by simp)]
    rfl
  have hw : walkEnd (zeroCounts S.regions) size 0 = 0 := by
    rw [walkEnd_eq]
    rw [if_neg]
    intro hcon
    have h1 := hcon.1
    rw [regionAt_zeroCounts S.regions 0 (by omega)] at h1
    have h2 : size > (regionAt S.regions 0).capacity := by simpa using h1
    rw [hcapS] at h2
    omega
  have hroomS : (regionAt (zeroCounts S.regions) (walkEnd (zeroCounts S.regions) size 0)).count
      + size ≤ (regionAt (zeroCounts S.regions) (walkEnd (zeroCounts S.regions) size 0)).capacity := by
    rw [hw, regionAt_zeroCounts S.regions 0 (by omega)]
    show 0 + size ≤ (regionAt S.regions 0).capacity
    rw [hcapS]
    omega
  rw [arena_alloc_of_some _ 0 rfl bytes]
  rw [show roundWords bytes = size from hsz.symm]
  rw [allocInRegions_of_room _ size 0 rfl hroomS]
  rw [hw]
  rw [regionAt_zeroCounts S.regions 0 (by omega)]
  have hcapS2 : (regionAt (s0 :: rest) 0).capacity = cap := by
    rw [← hcons]; exact hcapS
  have hdataS2 : (regionAt (s0 :: rest) 0).data = fun _ => 0 := by
    rw [← hcons]; exact hdataS
  refine congrArg₂ Prod.mk rfl ?_
  ext1
  case regions =>
    rw [hcons, zeroCounts_cons, set_zero_cons]
    dsimp only
    simp only [List.length_singleton, List.drop_succ_cons, List.drop_zero, List.singleton_append]
    refine congrArg₂ List.cons ?_ rfl
    refine Region.eq_of_fields ?_ ?_ ?_
    · dsimp only
      omega
    · exact hcapS2
    · exact hdataS2
  case endIdx => rfl
  case region_creations => rfl
  case allocations_bigger_than_region_size => rfl

lemma alloc_rewind_step_some (X S X1 : Arena) (bytes : Nat) (p : Ptr) (e0 : Nat) (hV : Valid X)
    (he : X.endIdx = some e0)
    (halloc : arena_alloc X bytes = (some p, X1))
    (hV1 : Valid X1) (hext : Extends X1 S) :
    arena_alloc (arena_rewind S (arena_snapshot X)) bytes
      = (some p, arena_rewind S (arena_snapshot X1)) := by
  have he0 : e0 < X.regions.length := hV.end_lt e0 he
  obtain ⟨p0, a0, halloc0, hV0, hextX⟩ := arena_alloc_mono X bytes hV
  rw [halloc] at halloc0
  injection halloc0 with hh1 hh2
  subst hh2
  have hextXS : Extends X S := Extends_trans hextX hext
  set size := roundWords bytes with hsz
  set e1 := walkEnd X.regions size e0 with he1
  have hee : e0 ≤ e1 := walkEnd_ge X.regions size e0
  have hlt1 : e1 < X.regions.length := walkEnd_lt X.regions size e0 he0
  rw [arena_alloc_of_some X e0 he bytes] at halloc
  rw [← hsz] at halloc
  rw [rewind_snapshot_ext X S e0 hV he hextXS]
  by_cases hroom : (regionAt X.regions e1).count + size ≤ (regionAt X.regions e1).capacity
  · -- run 1 finds room at e1 inside X's own chain
    rw [allocInRegions_of_room X size e0 he (by rw [← he1]; exact hroom)] at halloc
    rw [← he1] at halloc
    injection halloc with h1 h2
    injection h1 with h1
    subst h1
    subst h2
    rw [rewind_snapshot_ext _ S e1 hV1 rfl hext]
    rw [arena_alloc_of_some _ e0 rfl bytes]
    rw [← hsz]
    have hwY : walkEnd
        (X.regions ++ zeroCounts (S.regions.drop X.regions.length)) size e0 = e1 := by
      rw [he1]
      exact walkEnd_append_of_room X.regions _ size e0 he0 (by rw [← he1]; exact hroom)
    have hroomY :
        (regionAt (X.regions ++ zeroCounts (S.regions.drop X.regions.length))
            (walkEnd (X.regions ++ zeroCounts (S.regions.drop X.regions.length)) size e0)).count
          + size ≤
        (regionAt (X.regions ++ zeroCounts (S.regions.drop X.regions.length))
            (walkEnd (X.regions ++ zeroCounts (S.regions.drop X.regions.length)) size e0)).capacity := by
      rw [hwY, regionAt_append_left _ _ _ hlt1]
      exact hroom
    rw [allocInRegions_of_room _ size e0 rfl hroomY]
    rw [hwY]
    rw [regionAt_append_left _ _ _ hlt1]
    refine congrArg₂ Prod.mk rfl ?_
    ext1
    · dsimp only
      rw [List.length_set]
      rw [set_append_left _ _ _ _ hlt1]
    · rfl
    · rfl
    · rfl
  · -- run 1 appends a fresh region after X's chain
    have hfull : (regionAt X.regions e1).capacity < (regionAt X.regions e1).count + size := by
      omega
    rw [allocInRegions_of_full X size e0 he he0 (by rw [← he1]; exact hfull)] at halloc
    injection halloc with h1 h2
    injection h1 with h1
    subst h1
    subst h2
    have hlenA : ({ X with
        regions := X.regions ++
          [{ count := size
             capacity := if defaultCapacity < size then size else defaultCapacity
             data := fun _ => 0 }]
        region_creations := X.region_creations + 1
        endIdx := some X.regions.length } : Arena).regions.length
        = X.regions.length + 1 := by
      simp
    have hlenS : X.regions.length + 1 ≤ S.regions.length := by
      have := hext.len_le
      rw [hlenA] at this
      exact this
    have hcapR : (regionAt S.regions X.regions.length).capacity
        = (if defaultCapacity < size then size else defaultCapacity) := by
      have h := hext.cap_eq X.regions.length (by rw [hlenA]; omega)
      rw [h]
      dsimp only
      rw [regionAt_append_right _ _ _ (le_refl _), Nat.sub_self, regionAt_cons_zero]
    have hdataR : (regionAt S.regions X.regions.length).data = fun _ => 0 := by
      have h := hext.data_eq X.regions.length (by rw [hlenA]; omega)
      rw [h]
      dsimp only
      rw [regionAt_append_right _ _ _ (le_refl _), Nat.sub_self, regionAt_cons_zero]
    have hszcap : size ≤ (if defaultCapacity < size then size else defaultCapacity) := by
      split <;> omega
    have hdropcons : S.regions.drop X.regions.length
        = regionAt S.regions X.regions.length :: S.regions.drop (X.regions.length + 1) := by
      rw [List.drop_eq_getElem_cons (show X.regions.length < S.regions.length by omega)]
      congr 1
      simp [regionAt, List.getElem?_eq_getElem
        (show X.regions.length < S.regions.length by omega)]
    have hTcons : zeroCounts (S.regions.drop X.regions.length)
        = { regionAt S.regions X.regions.length with count := 0 }
            :: zeroCounts (S.regions.drop (X.regions.length + 1)) := by
      rw [hdropcons, zeroCounts_cons]
    rw [rewind_snapshot_ext _ S X.regions.length hV1 rfl hext]
    rw [arena_alloc_of_some _ e0 rfl bytes]
    rw [← hsz]
    rw [hTcons]
    have htz : ({ regionAt S.regions X.regions.length with count := 0 } : Region).count + size
        ≤ ({ regionAt S.regions X.regions.length with count := 0 } : Region).capacity := by
      show 0 + size ≤ (regionAt S.regions X.regions.length).capacity
      rw [hcapR]
      omega
    have hwY : walkEnd
        (X.regions ++ { regionAt S.regions X.regions.length with count := 0 }
          :: zeroCounts (S.regions.drop (X.regions.length + 1))) size e0
        = X.regions.length := by
      exact walkEnd_append_of_full X.regions _ _ size e0 he0 (by rw [← he1]; exact hfull) htz
    have hregY : regionAt
        (X.regions ++ { regionAt S.regions X.regions.length with count := 0 }
          :: zeroCounts (S.regions.drop (X.regions.length + 1))) X.regions.length
        = { regionAt S.regions X.regions.length with count := 0 } := by
      rw [regionAt_append_right _ _ _ (le_refl _), Nat.sub_self, regionAt_cons_zero]
    have hroomY :
        (regionAt (X.regions ++ { regionAt S.regions X.regions.length with count := 0 }
            :: zeroCounts (S.regions.drop (X.regions.length + 1)))
          (walkEnd (X.regions ++ { regionAt S.regions X.regions.length with count := 0 }
            :: zeroCounts (S.regions.drop (X.regions.length + 1))) size e0)).count + size ≤
        (regionAt (X.regions ++ { regionAt S.regions X.regions.length with count := 0 }
            :: zeroCounts (S.regions.drop (X.regions.length + 1)))
          (walkEnd (X.regions ++ { regionAt S.regions X.regions.length with count := 0 }
            :: zeroCounts (S.regions.drop (X.regions.length + 1))) size e0)).capacity := by
      rw [hwY, hregY]
      exact htz
    rw [allocInRegions_of_room _ size e0 rfl hroomY]
    rw [hwY, hregY]
    refine congrArg₂ Prod.mk rfl ?_
    ext1
    · dsimp only
      rw [set_append_boundary]
      rw [hlenA]
      rw [List.append_assoc, List.singleton_append]
      refine congrArg _ ?_
      refine congrArg₂ List.cons ?_ rfl
      refine Region.eq_of_fields ?_ ?_ ?_
      · dsimp only
        omega
      · exact hcapR
      · exact hdataR
    · rfl
    · rfl
    · rfl

lemma alloc_rewind_step (X S X1 : Arena) (bytes : Nat) (p : Ptr) (hV : Valid X)
    (halloc : arena_alloc X bytes = (some p, X1))
    (hV1 : Valid X1) (hext : Extends X1 S) :
    arena_alloc (arena_rewind S (arena_snapshot X)) bytes
      = (some p, arena_rewind S (arena_snapshot X1)) := by
  cases he : X.endIdx with
  | none => exact alloc_rewind_step_empty X S X1 bytes p hV he halloc hV1 hext
  | some e0 => exact alloc_rewind_step_some X S X1 bytes p e0 hV he halloc hV1 hext

lemma allocMany_rewind_roundtrip (sizes : List Nat) (X : Arena) (hV : Valid X) :
    (allocMany (arena_rewind (allocMany X sizes).2 (arena_snapshot X)) sizes).1
      = (allocMany X sizes).1 := by
  induction sizes generalizing X with
  | nil => rfl
  | cons b rest ih =>
    obtain ⟨p, X1, halloc, hV1, hextX⟩ := arena_alloc_mono X b hV
    have hrest := allocMany_mono rest X1 hV1
    have hstep := alloc_rewind_step X (allocMany X1 rest).2 X1 b p hV halloc hV1 hrest.2.1
    have h1 : (allocMany X (b :: rest)).2 = (allocMany X1 rest).2 := by
      simp [allocMany, halloc]
    have h2 : (allocMany X (b :: rest)).1 = some p :: (allocMany X1 rest).1 := by
      simp [allocMany, halloc]
    rw [h1, h2]
    have h4 : allocMany (arena_rewind (allocMany X1 rest).2 (arena_snapshot X)) (b :: rest)
        = (some p
            :: (allocMany (arena_rewind (allocMany X1 rest).2 (arena_snapshot X1)) rest).1,
           (allocMany (arena_rewind (allocMany X1 rest).2 (arena_snapshot X1)) rest).2) := by
      simp [allocMany, hstep]
    rw [h4]
    exact congrArg₂ List.cons rfl (ih X1 hV1)

lemma regionAt_set_ge (rs : List Region) (e : Nat) (r : Region) (h : rs.length ≤ e) (i : Nat) :
    regionAt (rs.set e r) i = regionAt rs i := by
  rw [List.set_eq_of_length_le h]

lemma set_preserves_data (rs : List Region) (e : Nat) (r : Region)
    (hdata : r.data = (regionAt rs e).data) (i : Nat) :
    (regionAt (rs.set e r) i).data = (regionAt rs i).data := by
  by_cases hie : e = i
  · subst hie
    by_cases hl : e < rs.length
    · rw [regionAt_set_self _ _ _ hl, hdata]
    · rw [regionAt_set_ge _ _ _ (by omega)]
  · rw [regionAt_set_ne _ _ _ _ hie]

lemma writeByte_length (a : Arena) (p : Ptr) (i v : Nat) :
    (writeByte a p i v).regions.length = a.regions.length := by
  simp [writeByte]

lemma copyBytesFrom_length (dst src : Ptr) (n : Nat) :
    ∀ i a, (copyBytesFrom dst src n i a).regions.length = a.regions.length := by
  intro i a
  rw [copyBytesFrom_eq]
  split
  · rw [copyBytesFrom_length dst src n (i + 1)]
    exact writeByte_length a dst i (readByte a src i)
  · rfl
termination_by i => n - i
decreasing_by omega

lemma readByte_writeByte_same (a : Arena) (p : Ptr) (i v : Nat) (hp : p.1 < a.regions.length) :
    readByte (writeByte a p i v) p i = v := by
  unfold readByte writeByte
  dsimp only
  rw [regionAt_set_self _ _ _ hp]
  simp

lemma readByte_writeByte_ne (a : Arena) (p q : Ptr) (i j v : Nat)
    (h : p.1 ≠ q.1 ∨ q.2 * wordSize + j ≠ p.2 * wordSize + i) :
    readByte (writeByte a p i v) q j = readByte a q j := by
  unfold readByte writeByte
  dsimp only
  rcases h with h | h
  · rw [regionAt_set_ne _ _ _ _ h]
  · by_cases hpq : p.1 = q.1
    · rw [hpq]
      by_cases hp : q.1 < a.regions.length
      · rw [regionAt_set_self _ _ _ hp]
        dsimp only
        rw [if_neg h]
      · rw [regionAt_set_ge _ _ _ (by omega)]
    · rw [regionAt_set_ne _ _ _ _ hpq]

lemma copyBytesFrom_outside (dst src : Ptr) (n : Nat) :
    ∀ i a ri j, (ri ≠ dst.1 ∨ j < dst.2 * wordSize + i ∨ dst.2 * wordSize + n ≤ j) →
      (regionAt (copyBytesFrom dst src n i a).regions ri).data j
        = (regionAt a.regions ri).data j := by
  intro i a ri j hcond
  rw [copyBytesFrom_eq]
  split
  · rename_i hin
    rw [copyBytesFrom_outside dst src n (i + 1) _ ri j
      (by rcases hcond with h | h | h
          · exact Or.inl h
          · exact Or.inr (Or.inl (by omega))
          · exact Or.inr (Or.inr h))]
    unfold writeByte
    dsimp only
    by_cases hri : dst.1 = ri
    · subst hri
      by_cases hl : dst.1 < a.regions.length
      · rw [regionAt_set_self _ _ _ hl]
        dsimp only
        rw [if_neg ?_]
        rcases hcond with h | h | h
        · exact absurd rfl h
        · omega
        · omega
      · rw [regionAt_set_ge _ _ _ (by omega)]
    · rw [regionAt_set_ne _ _ _ _ hri]
  · rfl
termination_by i => n - i
decreasing_by omega

lemma copyBytesFrom_reads (dst src : Ptr) (n : Nat)
    (hdisj : dst.1 ≠ src.1 ∨ src.2 * wordSize + n ≤ dst.2 * wordSize
              ∨ dst.2 * wordSize + n ≤ src.2 * wordSize) :
    ∀ i a, dst.1 < a.regions.length → ∀ k, i ≤ k → k < n →
      readByte (copyBytesFrom dst src n i a) dst k = readByte a src k := by
  intro i a hlen k hik hkn
  rw [copyBytesFrom_eq]
  rw [if_pos (by omega)]
  by_cases hki : k = i
  · subst hki
    have hout := copyBytesFrom_outside dst src n (k + 1)
        (writeByte a dst k (readByte a src k)) dst.1 (dst.2 * wordSize + k)
        (Or.inr (Or.inl (by omega)))
    refine Eq.trans hout ?_
    exact readByte_writeByte_same a dst k _ hlen
  · rw [copyBytesFrom_reads dst src n hdisj (i + 1)
      (writeByte a dst i (readByte a src i))
      (by rw [writeByte_length]; exact hlen) k (by omega) hkn]
    refine readByte_writeByte_ne a dst src i k _ ?_
    rcases hdisj with h | h | h
    · exact Or.inl h
    · right; omega
    · right; omega
termination_by i => n - i
decreasing_by omega

lemma dataPreserved_allocInRegions (a : Arena) (size : Nat) :
    dataPreserved a (allocInRegions a size).2 := by
  unfold allocInRegions
  cases he : a.endIdx with
  | none => intro i h1 h2; rfl
  | some e0 =>
    dsimp only
    split
    · split
      · intro i h1 h2
        dsimp only [carve]
        refine Eq.trans (set_preserves_data _ _ _ ?_ i) ?_
        · rfl
        · exact congrArg Region.data (regionAt_append_left _ _ _ h1)
      · intro i h1 h2; rfl
    · intro i h1 h2
      dsimp only [carve]
      refine Eq.trans (set_preserves_data _ _ _ ?_ i) rfl
      rfl

lemma dataPreserved_arena_alloc (a : Arena) (bytes : Nat) :
    dataPreserved a (arena_alloc a bytes).2 := by
  unfold arena_alloc
  cases he : a.endIdx with
  | some e0 => exact dataPreserved_allocInRegions a (roundWords bytes)
  | none =>
    dsimp only
    split
    · rename_i hie
      intro i h1 h2
      rw [List.isEmpty_iff.1 hie] at h1
      simp at h1
    · intro i h1 h2; rfl

lemma dataPreserved_arena_reset (a : Arena) : dataPreserved a (arena_reset a) := by
  intro i h1 h2
  unfold arena_reset
  dsimp only
  rw [regionAt_zeroCounts _ _ h1]

lemma dataPreserved_arena_rewind (a : Arena) (s : ArenaSnapshot) :
    dataPreserved a (arena_rewind a s) := by
  unfold arena_rewind
  cases s.region with
  | none => exact dataPreserved_arena_reset a
  | some i0 =>
    intro i h1 h2
    dsimp only
    rw [regionAt_rewindRegions _ _ _ _ h1]
    split
    · rfl
    · rfl

lemma dataPreserved_arena_free (a : Arena) : dataPreserved a (arena_free a) := by
  intro i h1 h2
  simp [arena_free] at h2

lemma dataPreserved_arena_trim (a b : Arena) (h : arena_trim a = some b) :
    dataPreserved a b := by
  unfold arena_trim at h
  cases he : a.endIdx with
  | none => rw [he] at h; simp at h
  | some e =>
    rw [he] at h
    simp only [Option.some.injEq] at h
    subst h
    intro i h1 h2
    dsimp only
    have h2' : i < e + 1 := by
      simp only [List.length_take] at h2
      omega
    simp [regionAt, List.getElem?_take, h2']

lemma arena_alloc_fresh (a : Arena) (bytes : Nat) (q : Ptr) (a1 : Arena) (hV : Valid a)
    (h : arena_alloc a bytes = (some q, a1)) :
    q.1 < a1.regions.length ∧ a.regions.length ≤ a1.regions.length ∧
      (∀ r, r < a.regions.length → q.1 = r → (regionAt a.regions r).count ≤ q.2) := by
  cases he : a.endIdx with
  | none =>
    have h0 : a.regions = [] := hV.empty_iff.2 he
    rw [arena_alloc_of_empty a h0 he bytes] at h
    injection h with h1 h2
    injection h1 with h1
    subst h1
    subst h2
    refine ⟨by simp, by simp [h0], ?_⟩
    intro r hr
    rw [h0] at hr
    simp at hr
  | some e0 =>
    have he0 : e0 < a.regions.length := hV.end_lt e0 he
    rw [arena_alloc_of_some a e0 he bytes] at h
    set size := roundWords bytes with hsz
    set e1 := walkEnd a.regions size e0 with he1
    have hlt1 : e1 < a.regions.length := walkEnd_lt a.regions size e0 he0
    by_cases hroom : (regionAt a.regions e1).count + size ≤ (regionAt a.regions e1).capacity
    · rw [allocInRegions_of_room a size e0 he (by rw [← he1]; exact hroom)] at h
      rw [← he1] at h
      injection h with h1 h2
      injection h1 with h1
      subst h1
      subst h2
      refine ⟨by simpa using hlt1, by simp, ?_⟩
      intro r hr hqr
      dsimp only at hqr ⊢
      rw [← hqr]
    · rw [allocInRegions_of_full a size e0 he he0 (by rw [← he1]; omega)] at h
      injection h with h1 h2
      injection h1 with h1
      subst h1
      subst h2
      refine ⟨by simp, by simp, ?_⟩
      intro r hr hqr
      dsimp only at hqr
      omega

lemma arena_realloc_le (a : Arena) (p : Ptr) (oldsz newsz : Nat) (h : newsz ≤ oldsz) :
    arena_realloc a p oldsz newsz = (some p, a) := by
  unfold arena_realloc
  rw [if_pos h]

lemma arena_realloc_grow (a : Arena) (r off oldsz newsz : Nat) (hV : Valid a)
    (hlive : liveRange a (r, off) oldsz) (hgrow : oldsz < newsz) :
    ∃ q a2, arena_realloc a (r, off) oldsz newsz = (some q, a2) ∧
      (arena_alloc a newsz).1 = some q ∧
      (∀ i, i < oldsz → readByte a2 q i = readByte a (r, off) i) ∧
      (∀ i, i < oldsz → readByte a2 (r, off) i = readByte a (r, off) i) := by
  obtain ⟨q, a1, halloc, hV1, hext⟩ := arena_alloc_mono a newsz hV
  obtain ⟨hq1, hlen1, hfresh⟩ := arena_alloc_fresh a newsz q a1 hV halloc
  have hdp := dataPreserved_arena_alloc a newsz
  rw [halloc] at hdp
  dsimp only at hdp
  have hlr : r < a.regions.length := hlive.1
  have hcount : q.1 = r → (regionAt a.regions r).count * wordSize ≤ q.2 * wordSize :=
    fun hc => Nat.mul_le_mul_right _ (hfresh r hlr hc)
  have hoff : off * wordSize + oldsz ≤ (regionAt a.regions r).count * wordSize := hlive.2
  refine ⟨q, copyBytesFrom q (r, off) oldsz 0 a1, ?_, ?_, ?_, ?_⟩
  · unfold arena_realloc
    rw [if_neg (by omega), halloc]
  · rw [halloc]
  · intro i hi
    have hdisj : q.1 ≠ (r, off).1 ∨ (r, off).2 * wordSize + oldsz ≤ q.2 * wordSize
        ∨ q.2 * wordSize + oldsz ≤ (r, off).2 * wordSize := by
      by_cases hqr : q.1 = r
      · right; left
        have := hcount hqr
        dsimp only
        omega
      · exact Or.inl hqr
    rw [copyBytesFrom_reads q (r, off) oldsz hdisj 0 a1 hq1 i (by omega) hi]
    show (regionAt a1.regions r).data (off * wordSize + i)
        = (regionAt a.regions r).data (off * wordSize + i)
    rw [hdp r hlr (by omega)]
  · intro i hi
    have hout := copyBytesFrom_outside q (r, off) oldsz 0 a1 r (off * wordSize + i) ?_
    · refine Eq.trans hout ?_
      show (regionAt a1.regions r).data (off * wordSize + i)
          = (regionAt a.regions r).data (off * wordSize + i)
      rw [hdp r hlr (by omega)]
    · by_cases hqr : q.1 = r
      · right; left
        have := hcount hqr
        omega
      · left; exact fun hc => hqr hc.symm

lemma le_roundWords_mul (b : Nat) : b ≤ roundWords b * wordSize := by
  unfold roundWords wordSize
  omega

lemma roundWords_pos (b : Nat) (hb : 0 < b) : 0 < roundWords b := by
  unfold roundWords wordSize
  omega

lemma allocMany_single_region (sizes : List Nat) :
    ∀ c cap d rc ab, c + (sizes.map roundWords).sum ≤ cap →
      allocMany { regions := [{ count := c, capacity := cap, data := d }]
                  endIdx := some 0, region_creations := rc
                  allocations_bigger_than_region_size := ab } sizes
        = ((bumpOffsets c sizes).map (fun o => some ((0 : Nat), o)),
           { regions := [{ count := c + (sizes.map roundWords).sum, capacity := cap, data := d }]
             endIdx := some 0, region_creations := rc
             allocations_bigger_than_region_size := ab }) := by
  induction sizes with
  | nil =>
    intro c cap d rc ab hfit
    simp [allocMany, bumpOffsets]
  | cons b rest ih =>
    intro c cap d rc ab hfit
    have hsums : (List.map roundWords (b :: rest)).sum
        = roundWords b + (List.map roundWords rest).sum := by
      simp
    have hroom : c + roundWords b ≤ cap := by
      rw [hsums] at hfit
      omega
    have hw : walkEnd [({ count := c, capacity := cap, data := d } : Region)] (roundWords b) 0
        = 0 := by
      rw [walkEnd_eq]
      rw [if_neg]
      simp
    have h1 : arena_alloc
        { regions := [{ count := c, capacity := cap, data := d }],
          endIdx := some 0, region_creations := rc,
          allocations_bigger_than_region_size := ab } b
        = (some (0, c),
           { regions := [{ count := c + roundWords b, capacity := cap, data := d }],
             endIdx := some 0, region_creations := rc,
             allocations_bigger_than_region_size := ab }) := by
      rw [arena_alloc_of_some _ 0 rfl b]
      rw [allocInRegions_of_room _ (roundWords b) 0 rfl ?_]
      · rw [hw]
        rfl
      · rw [hw]
        show c + roundWords b ≤ cap
        exact hroom
    simp only [allocMany]
    rw [h1]
    dsimp only
    rw [ih (c + roundWords b) cap d rc ab (by rw [hsums] at hfit; omega)]
    rw [hsums]
    rw [show c + (roundWords b + (List.map roundWords rest).sum)
        = c + roundWords b + (List.map roundWords rest).sum from by omega]
    rfl

lemma allocMany_from_empty (sizes : List Nat)
    (hsum : (sizes.map roundWords).sum ≤ defaultCapacity) :
    (allocMany mkArena sizes).1
      = (bumpOffsets 0 sizes).map (fun o => some ((0 : Nat), o)) := by
  cases sizes with
  | nil => rfl
  | cons b rest =>
    have hsums : (List.map roundWords (b :: rest)).sum
        = roundWords b + (List.map roundWords rest).sum := by
      simp
    have hble : roundWords b ≤ defaultCapacity := by
      rw [hsums] at hsum
      omega
    have h1 := arena_alloc_of_empty mkArena rfl rfl b
    rw [if_neg (by omega), if_neg (by omega)] at h1
    simp only [allocMany]
    rw [h1]
    dsimp only
    rw [allocMany_single_region rest (roundWords b) defaultCapacity (fun _ => 0)
        (mkArena.region_creations + 1) mkArena.allocations_bigger_than_region_size
        (by rw [hsums] at hsum; omega)]
    dsimp only
    rw [show bumpOffsets 0 (b :: rest) = 0 :: bumpOffsets (0 + roundWords b) rest from rfl]
    rw [Nat.zero_add]
    rfl

lemma bumpOffsets_getElem (sizes : List Nat) :
    ∀ c i, i < sizes.length →
      (bumpOffsets c sizes)[i]? = some (c + ((sizes.map roundWords).take i).sum) := by
  induction sizes with
  | nil => intro c i hi; simp at hi
  | cons b rest ih =>
    intro c i hi
    cases i with
    | zero => simp [bumpOffsets]
    | succ k =>
      rw [show bumpOffsets c (b :: rest) = c :: bumpOffsets (c + roundWords b) rest from rfl]
      rw [List.getElem?_cons_succ]
      rw [ih (c + roundWords b) k (by simpa using hi)]
      congr 1
      rw [show (List.map roundWords (b :: rest)).take (k + 1)
          = roundWords b :: (List.map roundWords rest).take k from by simp]
      rw [List.sum_cons]
      omega

lemma sum_take_mono (A : List Nat) (i j : Nat) (hij : i ≤ j) :
    (A.take i).sum ≤ (A.take j).sum := by
  induction j with
  | zero =>
    have h0 : i = 0 := by omega
    subst h0
    exact le_refl _
  | succ k ih =>
    by_cases h : i = k + 1
    · subst h
      exact le_refl _
    · refine le_trans (ih (by omega)) ?_
      rw [List.take_succ, List.sum_append]
      omega

lemma sum_take_succ_getElem (A : List Nat) (i : Nat) (x : Nat)
    (hx : A[i]? = some x) :
    (A.take (i + 1)).sum = (A.take i).sum + x := by
  rw [List.take_succ, List.sum_append, hx]
  simp

lemma copyBytesGo_endIdx (dst src : Ptr) (n : Nat) :
    ∀ fuel i a, (copyBytesGo dst src n fuel i a).endIdx = a.endIdx := by
  intro fuel
  induction fuel with
  | zero => intro i a; rfl
  | succ k ih =>
    intro i a
    rw [copyBytesGo]
    split
    · rw [ih]
      rfl
    · rfl

lemma copyBytesFrom_endIdx (dst src : Ptr) (n i : Nat) (a : Arena) :
    (copyBytesFrom dst src n i a).endIdx = a.endIdx :=
  copyBytesGo_endIdx dst src n (n - i) i a

lemma allocInRegions_ab (a : Arena) (size : Nat) :
    (allocInRegions a size).2.allocations_bigger_than_region_size
      = a.allocations_bigger_than_region_size := by
  unfold allocInRegions
  cases a.endIdx with
  | none => rfl
  | some e0 =>
    dsimp only
    split
    · split
      · rfl
      · rfl
    · rfl

lemma arena_alloc_ab_some (a : Arena) (e0 : Nat) (he : a.endIdx = some e0) (bytes : Nat) :
    (arena_alloc a bytes).2.allocations_bigger_than_region_size
      = a.allocations_bigger_than_region_size := by
  rw [arena_alloc_of_some a e0 he bytes]
  exact allocInRegions_ab a (roundWords bytes)

lemma set_ne_nil (rs : List Region) (e : Nat) (r : Region) (h : rs ≠ []) :
    rs.set e r ≠ [] := by
  intro hc
  have hlen := congrArg List.length hc
  simp only [List.length_set, List.length_nil] at hlen
  exact h (List.length_eq_zero.1 hlen)

lemma allocInRegions_BE (a : Arena) (size : Nat)
    (hBE : a.regions = [] ↔ a.endIdx = none) :
    ((allocInRegions a size).2.regions = [] ↔ (allocInRegions a size).2.endIdx = none) := by
  unfold allocInRegions
  cases he : a.endIdx with
  | none =>
    dsimp only
    exact hBE
  | some e0 =>
    have hne : a.regions ≠ [] := by
      intro h0
      have h1 := hBE.1 h0
      rw [he] at h1
      cases h1
    dsimp only
    split
    · split
      · constructor
        · intro hc
          exact absurd hc (set_ne_nil _ _ _ (by simp))
        · intro hc
          cases hc
      · constructor
        · intro hc
          exact absurd hc hne
        · intro hc
          rw [he] at hc
          cases hc
    · constructor
      · intro hc
        exact absurd hc (set_ne_nil _ _ _ hne)
      · intro hc
        cases hc

lemma arena_alloc_BE (a : Arena) (bytes : Nat)
    (hBE : a.regions = [] ↔ a.endIdx = none) :
    ((arena_alloc a bytes).2.regions = [] ↔ (arena_alloc a bytes).2.endIdx = none) := by
  unfold arena_alloc
  cases he : a.endIdx with
  | none =>
    dsimp only
    split
    · exact allocInRegions_BE _ _ (by simp)
    · exact hBE
  | some e0 =>
    exact allocInRegions_BE a (roundWords bytes) hBE

lemma arena_reset_BE (a : Arena) :
    ((arena_reset a).regions = [] ↔ (arena_reset a).endIdx = none) := by
  unfold arena_reset
  dsimp only
  cases hr : a.regions with
  | nil => simp [zeroCounts]
  | cons x xs => simp [zeroCounts]

lemma arena_rewind_BE (a : Arena) (s : ArenaSnapshot)
    (hs : s.region = none ∨ ∃ i, s.region = some i ∧ i < a.regions.length) :
    ((arena_rewind a s).regions = [] ↔ (arena_rewind a s).endIdx = none) := by
  unfold arena_rewind
  rcases hs with hs | ⟨i, hs, hi⟩
  · rw [hs]
    exact arena_reset_BE a
  · rw [hs]
    dsimp only
    constructor
    · intro hc
      have hlen := congrArg List.length hc
      rw [rewindRegions_length] at hlen
      simp only [List.length_nil] at hlen
      omega
    · intro hc
      cases hc

lemma arena_free_BE (a : Arena) :
    ((arena_free a).regions = [] ↔ (arena_free a).endIdx = none) := by
  simp [arena_free]

lemma arena_trim_BE (a b : Arena) (h : arena_trim a = some b)
    (hBE : a.regions = [] ↔ a.endIdx = none) :
    (b.regions = [] ↔ b.endIdx = none) := by
  unfold arena_trim at h
  cases he : a.endIdx with
  | none => rw [he] at h; cases h
  | some e =>
    have hne : a.regions ≠ [] := by
      intro h0
      have h1 := hBE.1 h0
      rw [he] at h1
      cases h1
    rw [he] at h
    simp only [Option.some.injEq] at h
    subst h
    dsimp only
    constructor
    · intro hc
      have hlen := congrArg List.length hc
      simp only [List.length_take, List.length_nil] at hlen
      have : a.regions.length = 0 := by omega
      exact absurd (List.length_eq_zero.1 this) hne
    · intro hc
      cases hc

lemma arena_realloc_state (a : Arena) (p : Ptr) (oldsz newsz : Nat) (h : oldsz < newsz) :
    (arena_realloc a p oldsz newsz).2 = (arena_alloc a newsz).2 ∨
    (arena_realloc a p oldsz newsz).2
        = copyBytesFrom ((arena_alloc a newsz).1.getD (0, 0)) p oldsz 0
            (arena_alloc a newsz).2 := by
  unfold arena_realloc
  rw [if_neg (by omega)]
  cases halloc : arena_alloc a newsz with
  | mk popt a1 =>
    cases popt with
    | none => left; rfl
    | some q => right; rfl

lemma arena_realloc_BE (a : Arena) (p : Ptr) (oldsz newsz : Nat)
    (hBE : a.regions = [] ↔ a.endIdx = none) :
    ((arena_realloc a p oldsz newsz).2.regions = []
      ↔ (arena_realloc a p oldsz newsz).2.endIdx = none) := by
  by_cases h : newsz ≤ oldsz
  · rw [arena_realloc_le a p oldsz newsz h]
    exact hBE
  · have hBE1 := arena_alloc_BE a newsz hBE
    rcases arena_realloc_state a p oldsz newsz (by omega) with hs | hs
    · rw [hs]
      exact hBE1
    · rw [hs]
      rw [copyBytesFrom_endIdx]
      constructor
      · intro hc
        have hlen := congrArg List.length hc
        rw [copyBytesFrom_length] at hlen
        simp only [List.length_nil] at hlen
        exact hBE1.1 (List.length_eq_zero.1 hlen)
      · intro hc
        have h2 : (arena_alloc a newsz).2.regions = [] := hBE1.2 hc
        refine List.length_eq_zero.1 ?_
        rw [copyBytesFrom_length, h2]
        rfl

lemma mem_of_getElem_some {l : List Nat} {i x : Nat} (h : l[i]? = some x) : x ∈ l := by
  obtain ⟨hlt, hx⟩ := List.getElem?_eq_some_iff.1 h
  exact hx ▸ List.getElem_mem hlt

lemma arena_realloc_preserves_live (a : Arena) (p : Ptr) (oldsz newsz : Nat) (hV : Valid a)
    (r j : Nat) (hr : r < a.regions.length)
    (hj : j < (regionAt a.regions r).count * wordSize) :
    (regionAt (arena_realloc a p oldsz newsz).2.regions r).data j
      = (regionAt a.regions r).data j := by
  by_cases hle : newsz ≤ oldsz
  · rw [arena_realloc_le a p oldsz newsz hle]
  · obtain ⟨q, a1, halloc, hV1, hext⟩ := arena_alloc_mono a newsz hV
    obtain ⟨hq1, hlen1, hfresh⟩ := arena_alloc_fresh a newsz q a1 hV halloc
    have hdp := dataPreserved_arena_alloc a newsz
    rw [halloc] at hdp
    dsimp only at hdp
    have hstate : (arena_realloc a p oldsz newsz).2 = copyBytesFrom q p oldsz 0 a1 := by
      unfold arena_realloc
      rw [if_neg (by omega), halloc]
    rw [hstate]
    have hout := copyBytesFrom_outside q p oldsz 0 a1 r j ?_
    · rw [hout]
      exact congrFun (hdp r hr (by omega)) j
    · by_cases hqr : q.1 = r
      · right
        left
        have hc : (regionAt a.regions r).count ≤ q.2 := hfresh r hr hqr
        have hc8 := Nat.mul_le_mul_right wordSize hc
        omega
      · left
        exact fun hc => hqr hc.symm

/-- Claim C1 as stated is false: from a non-empty arena (one 8-byte
allocation already made), an oversized request (65544 bytes = 8193 words,
more than the 8192-word default) creates a region whose capacity is exactly
the request, but `allocations_bigger_than_region_size` stays 0 — the source
only increments that counter in the empty-arena branch of `arena_alloc`. -/
theorem claim_C1_counterexample :
    defaultCapacity < roundWords 65544 ∧
    (arena_alloc mkArena 8).2.endIdx = some 0 ∧
    (arena_alloc mkArena 8).2.allocations_bigger_than_region_size = 0 ∧
    (arena_alloc (arena_alloc mkArena 8).2 65544).2.allocations_bigger_than_region_size = 0 ∧
    ((arena_alloc (arena_alloc mkArena 8).2 65544).2.regions.map Region.capacity)
        = [defaultCapacity, roundWords 65544] := by
  refine ⟨by decide, rfl, rfl, rfl, rfl⟩

/-- Claim C1, amended: for an allocation whose rounded word size exceeds
`default_capacity`: if the arena is empty, `arena_alloc` creates a region
with capacity exactly the rounded size and increments
`allocations_bigger_than_region_size` by exactly 1; if the arena is
non-empty, the counter is never changed, and any region the call creates
again has capacity exactly the rounded size. -/
theorem claim_C1 :
    (∀ a bytes, a.regions = [] → a.endIdx = none → defaultCapacity < roundWords bytes →
      (arena_alloc a bytes).2.allocations_bigger_than_region_size
          = a.allocations_bigger_than_region_size + 1 ∧
      (arena_alloc a bytes).2.regions
          = [{ count := roundWords bytes, capacity := roundWords bytes, data := fun _ => 0 }]) ∧
    (∀ a e0 bytes, a.endIdx = some e0 →
      (arena_alloc a bytes).2.allocations_bigger_than_region_size
          = a.allocations_bigger_than_region_size) ∧
    (∀ a e0 bytes, a.endIdx = some e0 → Valid a → defaultCapacity < roundWords bytes →
      (arena_alloc a bytes).2.regions.length = a.regions.length ∨
      (arena_alloc a bytes).2.regions = a.regions
          ++ [{ count := roundWords bytes, capacity := roundWords bytes
                data := fun _ => 0 }]) := by
  refine ⟨?_, ?_, ?_⟩
  · intro a bytes h0 h1 hbig
    rw [arena_alloc_of_empty a h0 h1 bytes]
    constructor
    · dsimp only
      rw [if_pos hbig]
    · dsimp only
      rw [if_pos hbig]
  · intro a e0 bytes he
    exact arena_alloc_ab_some a e0 he bytes
  · intro a e0 bytes he hV hbig
    have he0 : e0 < a.regions.length := hV.end_lt e0 he
    rw [arena_alloc_of_some a e0 he bytes]
    by_cases hroom : (regionAt a.regions (walkEnd a.regions (roundWords bytes) e0)).count
          + roundWords bytes
        ≤ (regionAt a.regions (walkEnd a.regions (roundWords bytes) e0)).capacity
    · left
      rw [allocInRegions_of_room a (roundWords bytes) e0 he hroom]
      simp
    · right
      rw [allocInRegions_of_full a (roundWords bytes) e0 he he0 (by omega)]
      dsimp only
      rw [if_pos hbig]

/-- Instantiation of claim C1 (amended) at concrete inputs: an oversized
allocation from the empty arena bumps the counter to 1 and sizes the region
exactly; the same request from a non-empty arena leaves the counter as it
was. -/
theorem claim_C1_witness :
    (arena_alloc mkArena 65544).2.allocations_bigger_than_region_size = 1 ∧
    (arena_alloc mkArena 65544).2.regions
        = [{ count := roundWords 65544, capacity := roundWords 65544, data := fun _ => 0 }] ∧
    (arena_alloc (arena_alloc mkArena 8).2 65544).2.allocations_bigger_than_region_size
        = (arena_alloc mkArena 8).2.allocations_bigger_than_region_size := by
  refine ⟨?_, ?_, ?_⟩
  · have h := (claim_C1.1 mkArena 65544 rfl rfl (by decide)).1
    simpa [mkArena] using h
  · exact (claim_C1.1 mkArena 65544 rfl rfl (by decide)).2
  · exact claim_C1.2.1 (arena_alloc mkArena 8).2 0 65544 rfl

/-- Claim C2: capture a snapshot of a (reachable) arena state, run any
sequence of allocations, rewind to the snapshot, and run the identical
sequence of sizes again — the second run returns pointer-for-pointer the
same addresses as the first (deterministic region reuse). -/
theorem claim_C2 (X : Arena) (hV : Valid X) (sizes : List Nat) :
    (allocMany (arena_rewind (allocMany X sizes).2 (arena_snapshot X)) sizes).1
      = (allocMany X sizes).1 :=
  allocMany_rewind_roundtrip sizes X hV

/-- Instantiation of claim C2 at a concrete run (48 B, 65520 B = 8190 words
forcing a second region, 24 B forcing a third): the rewound rerun returns
exactly the same three pointers. -/
theorem claim_C2_witness :
    (allocMany (arena_rewind (allocMany mkArena [48, 65520, 24]).2 (arena_snapshot mkArena))
        [48, 65520, 24]).1 = [some (0, 0), some (1, 0), some (2, 0)] := by
  have h := claim_C2 mkArena Valid_mkArena [48, 65520, 24]
  rw [h]
  rfl

/-- Claim C3: `arena_realloc` with `newsz ≤ oldsz` returns the old pointer
and leaves the arena untouched; with `newsz > oldsz` it returns exactly the
pointer a fresh `arena_alloc` would return and the first `oldsz` bytes of
the new block equal the old block's bytes at call time.  The old
allocation's bytes are never subsequently mutated by the arena: every
`arena_realloc` call — on any pointer argument and any sizes — confines its
writes to the freshly allocated block, leaving every payload byte that was
live (inside some region's used count) at call time unchanged, and every
other operation (`arena_alloc`, `arena_reset`, `arena_rewind`, `arena_trim`,
`arena_free`) never writes any surviving region's payload bytes at all. -/
theorem claim_C3 :
    (∀ a (p : Ptr) oldsz newsz, newsz ≤ oldsz →
      arena_realloc a p oldsz newsz = (some p, a)) ∧
    (∀ a r off oldsz newsz, Valid a → liveRange a (r, off) oldsz → oldsz < newsz →
      ∃ q a2, arena_realloc a (r, off) oldsz newsz = (some q, a2) ∧
        (arena_alloc a newsz).1 = some q ∧
        (∀ i, i < oldsz → readByte a2 q i = readByte a (r, off) i) ∧
        (∀ i, i < oldsz → readByte a2 (r, off) i = readByte a (r, off) i)) ∧
    (∀ a (p : Ptr) oldsz newsz r j, Valid a → r < a.regions.length →
      j < (regionAt a.regions r).count * wordSize →
      (regionAt (arena_realloc a p oldsz newsz).2.regions r).data j
        = (regionAt a.regions r).data j) ∧
    (∀ b bytes, dataPreserved b (arena_alloc b bytes).2) ∧
    (∀ b, dataPreserved b (arena_reset b)) ∧
    (∀ b s, dataPreserved b (arena_rewind b s)) ∧
    (∀ b b2, arena_trim b = some b2 → dataPreserved b b2) ∧
    (∀ b, dataPreserved b (arena_free b)) :=
  ⟨arena_realloc_le,
   fun a r off oldsz newsz hV hlive hgrow => arena_realloc_grow a r off oldsz newsz hV hlive hgrow,
   fun a p oldsz newsz r j hV hr hj => arena_realloc_preserves_live a p oldsz newsz hV r j hr hj,
   dataPreserved_arena_alloc,
   dataPreserved_arena_reset,
   dataPreserved_arena_rewind,
   dataPreserved_arena_trim,
   dataPreserved_arena_free⟩

/-- Instantiation of claim C3 at concrete inputs: shrinking a live 16-byte
allocation to 8 bytes is the identity; growing it to 32 bytes returns the
allocator's fresh pointer with the first 16 bytes copied and the old block
intact; and growing a second allocation leaves a byte inside the first,
different, live allocation unchanged. -/
theorem claim_C3_witness :
    arena_realloc (arena_alloc mkArena 16).2 (0, 0) 16 8
        = (some (0, 0), (arena_alloc mkArena 16).2) ∧
    (∃ q a2, arena_realloc (arena_alloc mkArena 16).2 (0, 0) 16 32 = (some q, a2) ∧
      (arena_alloc (arena_alloc mkArena 16).2 32).1 = some q ∧
      (∀ i, i < 16 → readByte a2 q i = readByte (arena_alloc mkArena 16).2 (0, 0) i) ∧
      (∀ i, i < 16 → readByte a2 (0, 0) i = readByte (arena_alloc mkArena 16).2 (0, 0) i)) ∧
    (regionAt (arena_realloc (allocMany mkArena [16, 8]).2 (0, 2) 8 24).2.regions 0).data 3
        = (regionAt (allocMany mkArena [16, 8]).2.regions 0).data 3 := by
  refine ⟨?_, ?_, ?_⟩
  · exact claim_C3.1 (arena_alloc mkArena 16).2 (0, 0) 16 8 (by omega)
  · refine claim_C3.2.1 (arena_alloc mkArena 16).2 0 0 16 32 ?_ ?_ (by omega)
    · obtain ⟨p, a1, h, hV1, _⟩ := arena_alloc_mono mkArena 16 Valid_mkArena
      have h2 : (arena_alloc mkArena 16).2 = a1 := by rw [h]
      rw [h2]
      exact hV1
    · exact ⟨by decide, by decide⟩
  · refine claim_C3.2.2.1 (allocMany mkArena [16, 8]).2 (0, 2) 8 24 0 3 ?_ (by decide)
      (by decide)
    have h := allocMany_mono [16, 8] mkArena Valid_mkArena
    exact h.1

/-- Claim C4: rewinding with a snapshot whose region is none (as captured
from a never-used arena) is exactly `arena_reset`; and after a reset every
region's count is 0 and `end` is set back to `begin`. -/
theorem claim_C4 (a : Arena) (s : ArenaSnapshot) (hs : s.region = none) :
    arena_rewind a s = arena_reset a ∧
    arena_rewind a (arena_snapshot mkArena) = arena_reset a ∧
    (∀ r ∈ (arena_reset a).regions, r.count = 0) ∧
    (arena_reset a).endIdx = (if a.regions.isEmpty then none else some 0) := by
  refine ⟨?_, rfl, ?_, rfl⟩
  · unfold arena_rewind
    rw [hs]
  · intro r hr
    unfold arena_reset at hr
    dsimp only at hr
    simp only [zeroCounts, List.mem_map] at hr
    obtain ⟨x, _, hx⟩ := hr
    rw [← hx]

/-- Instantiation of claim C4 at a concrete arena with one allocation. -/
theorem claim_C4_witness :
    arena_rewind (arena_alloc mkArena 8).2 { region := none, count := 0 }
        = arena_reset (arena_alloc mkArena 8).2 ∧
    (arena_reset (arena_alloc mkArena 8).2).regions.map Region.count = [0] := by
  have h := claim_C4 (arena_alloc mkArena 8).2 { region := none, count := 0 } rfl
  exact ⟨h.1, rfl⟩

/-- Claim C5: `begin` is none iff `end` is none — true of a freshly
constructed arena and preserved by `arena_alloc`, `arena_realloc`,
`arena_reset`, `arena_rewind` (with a snapshot referring to the same arena
and still valid), `arena_trim` (when it does not crash), and `arena_free`.
`arena_snapshot` only reads the arena and is modelled as a pure function. -/
theorem claim_C5 (a : Arena) (hBE : a.regions = [] ↔ a.endIdx = none) :
    (mkArena.regions = [] ↔ mkArena.endIdx = none) ∧
    (∀ bytes, ((arena_alloc a bytes).2.regions = []
        ↔ (arena_alloc a bytes).2.endIdx = none)) ∧
    (∀ (p : Ptr) oldsz newsz, ((arena_realloc a p oldsz newsz).2.regions = []
        ↔ (arena_realloc a p oldsz newsz).2.endIdx = none)) ∧
    ((arena_reset a).regions = [] ↔ (arena_reset a).endIdx = none) ∧
    (∀ s, (s.region = none ∨ ∃ i, s.region = some i ∧ i < a.regions.length) →
      ((arena_rewind a s).regions = [] ↔ (arena_rewind a s).endIdx = none)) ∧
    (∀ b, arena_trim a = some b → (b.regions = [] ↔ b.endIdx = none)) ∧
    ((arena_free a).regions = [] ↔ (arena_free a).endIdx = none) :=
  ⟨by simp [mkArena],
   fun bytes => arena_alloc_BE a bytes hBE,
   fun p o n => arena_realloc_BE a p o n hBE,
   arena_reset_BE a,
   fun s hs => arena_rewind_BE a s hs,
   fun b hb => arena_trim_BE a b hb hBE,
   arena_free_BE a⟩

/-- Instantiation of claim C5 at a one-region arena: the invariant survives
a further allocation and a full release. -/
theorem claim_C5_witness :
    ((arena_alloc (arena_alloc mkArena 8).2 24).2.regions = []
      ↔ (arena_alloc (arena_alloc mkArena 8).2 24).2.endIdx = none) ∧
    ((arena_free (arena_alloc mkArena 8).2).regions = []
      ↔ (arena_free (arena_alloc mkArena 8).2).endIdx = none) := by
  have hBE : (arena_alloc mkArena 8).2.regions = []
      ↔ (arena_alloc mkArena 8).2.endIdx = none := by
    constructor
    · intro hc
      exact Nat.noConfusion (show (1 : Nat) = 0 from congrArg List.length hc)
    · intro hc
      exact Option.noConfusion (show some 0 = (none : Option Nat) from hc)
  have h := claim_C5 (arena_alloc mkArena 8).2 hBE
  exact ⟨h.2.1 24, h.2.2.2.2.2.2⟩

/-- Claim C6 as stated is false: `new_region` computes
`sizeof(Region) + sizeof(uintptr_t) * capacity` with plain wrapping `size_t`
arithmetic and performs no overflow check; at capacity 2^61 the computed
byte size wraps to 24 — far below the true size — and region creation still
succeeds rather than failing an assertion. -/
theorem claim_C6_counterexample :
    regionByteSize (2 ^ 61) = 24 ∧
    sizeofRegion + wordSize * 2 ^ 61 = 2 ^ 64 + 24 ∧
    (new_region (2 ^ 61)).isSome = true := by
  refine ⟨?_, ?_, rfl⟩
  · norm_num [regionByteSize, sizeofRegion, wordSize]
  · norm_num [sizeofRegion, wordSize]

/-- Claim C6, amended: the backing-storage size computation in `new_region`
is unchecked and wraps modulo 2^64; for every capacity whose byte size
overflows, the computed size is strictly smaller than the true size and
region creation proceeds anyway (no assertion detects the overflow). -/
theorem claim_C6 (capacity : Nat) (hov : 2 ^ 64 ≤ sizeofRegion + wordSize * capacity) :
    regionByteSize capacity < sizeofRegion + wordSize * capacity ∧
    (new_region capacity).isSome = true := by
  constructor
  · unfold regionByteSize
    have h1 : (sizeofRegion + wordSize * capacity) % 2 ^ 64 < 2 ^ 64 :=
      Nat.mod_lt _ (by norm_num)
    omega
  · rfl

/-- Instantiation of claim C6 (amended) at capacity 2^61. -/
theorem claim_C6_witness :
    2 ^ 64 ≤ sizeofRegion + wordSize * 2 ^ 61 ∧
    regionByteSize (2 ^ 61) < sizeofRegion + wordSize * 2 ^ 61 := by
  have h := claim_C6 (2 ^ 61) (by norm_num [sizeofRegion, wordSize])
  exact ⟨by norm_num [sizeofRegion, wordSize], h.1⟩

/-- Claim C7 as stated is false for the Unix virtual-memory backend: its
`free_region` reads `r->capacity` before any null check, so a null region is
a null-pointer dereference (modelled as `none`), while the heap backend
(`free(NULL)`) and the Windows backend (explicit guard) are no-ops. -/
theorem claim_C7_counterexample :
    free_region_unix none = none ∧
    free_region_win none = some () ∧
    free_region_libc none = some () :=
  ⟨rfl, rfl, rfl⟩

/-- Claim C7, amended: `destroy_region` on a null region is a no-op for the
heap-backed and Windows backends; the Unix backend dereferences the null
region (undefined behaviour), and is defined on every non-null region. -/
theorem claim_C7 :
    (∀ r, free_region_libc r = some ()) ∧
    (∀ r, free_region_win r = some ()) ∧
    free_region_unix none = none ∧
    (∀ reg, free_region_unix (some reg) = some ()) := by
  refine ⟨?_, ?_, rfl, fun reg => rfl⟩
  · intro r
    cases r <;> rfl
  · intro r
    cases r <;> rfl

/-- Claim C8 as stated is false: two zero-byte allocations round to zero
words, satisfy the sum bound, and return the identical pointer twice, so the
offsets are not strictly increasing. -/
theorem claim_C8_counterexample :
    (List.map roundWords [0, 0]).sum ≤ defaultCapacity ∧
    (allocMany mkArena [0, 0]).1 = [some (0, 0), some (0, 0)] ∧
    ((allocMany mkArena [0, 0]).1)[0]? = ((allocMany mkArena [0, 0]).1)[1]? := by
  refine ⟨by decide, rfl, rfl⟩

/-- Claim C8, amended to positive-size allocations: for every sequence of
allocations of at least one byte each, whose rounded sizes sum to at most
one region's default capacity, every returned pointer lies in region 0 at
word offset equal to the prefix sum of rounded sizes; offsets are strictly
increasing in allocation order; the byte ranges are pairwise disjoint; and
every byte range lies within the region's buffer. -/
theorem claim_C8 (sizes : List Nat) (hpos : ∀ b ∈ sizes, 0 < b)
    (hsum : (sizes.map roundWords).sum ≤ defaultCapacity) :
    (∀ i, i < sizes.length → ((allocMany mkArena sizes).1)[i]?
        = some (some (0, ((sizes.map roundWords).take i).sum))) ∧
    (∀ i j bi, i < j → j < sizes.length → sizes[i]? = some bi →
      ((sizes.map roundWords).take i).sum < ((sizes.map roundWords).take j).sum ∧
      ((sizes.map roundWords).take i).sum * wordSize + bi
          ≤ ((sizes.map roundWords).take j).sum * wordSize) ∧
    (∀ i bi, i < sizes.length → sizes[i]? = some bi →
      ((sizes.map roundWords).take i).sum * wordSize + bi
          ≤ defaultCapacity * wordSize) := by
  have hchar := allocMany_from_empty sizes hsum
  refine ⟨?_, ?_, ?_⟩
  · intro i hi
    rw [hchar]
    rw [List.getElem?_map]
    rw [bumpOffsets_getElem sizes 0 i hi]
    simp
  · intro i j bi hij hj hbi
    have hA : (sizes.map roundWords)[i]? = some (roundWords bi) := by
      rw [List.getElem?_map, hbi]
      rfl
    have hstep := sum_take_succ_getElem (sizes.map roundWords) i (roundWords bi) hA
    have hmono := sum_take_mono (sizes.map roundWords) (i + 1) j (by omega)
    have hposb : 0 < bi := hpos bi (mem_of_getElem_some hbi)
    have hrw : 0 < roundWords bi := roundWords_pos bi hposb
    have hble : bi ≤ roundWords bi * wordSize := le_roundWords_mul bi
    constructor
    · omega
    · simp only [wordSize] at *
      omega
  · intro i bi hi hbi
    have hA : (sizes.map roundWords)[i]? = some (roundWords bi) := by
      rw [List.getElem?_map, hbi]
      rfl
    have hstep := sum_take_succ_getElem (sizes.map roundWords) i (roundWords bi) hA
    have hmono := sum_take_mono (sizes.map roundWords) (i + 1) (sizes.map roundWords).length
      (by simp; omega)
    rw [List.take_length] at hmono
    have hble : bi ≤ roundWords bi * wordSize := le_roundWords_mul bi
    simp only [wordSize] at *
    omega

/-- Instantiation of claim C8 (amended) at sizes 48, 16, 8: the third
pointer sits at word offset 6 + 2 = 8 of region 0. -/
theorem claim_C8_witness :
    ((allocMany mkArena [48, 16, 8]).1)[2]?
      = some (some (0, (([48, 16, 8].map roundWords).take 2).sum)) :=
  (claim_C8 [48, 16, 8] (by decide) (by decide)).1 2 (by decide)

/-- Claim C9 as stated is false: after one allocation and `arena_free`, the
pointers are null like a fresh arena's, but `region_creations` is still 1
whereas a freshly constructed arena has 0 — `arena_free` does not reset the
tracing counters. -/
theorem claim_C9_counterexample :
    (arena_free (arena_alloc mkArena 8).2).regions = [] ∧
    (arena_free (arena_alloc mkArena 8).2).endIdx = none ∧
    (arena_free (arena_alloc mkArena 8).2).region_creations = 1 ∧
    mkArena.region_creations = 0 :=
  ⟨rfl, rfl, rfl, rfl⟩

/-- Claim C9, amended: `arena_free` empties the chain and nulls both
pointers, matching a fresh arena in those fields, but it retains the
lifetime values of the two tracing counters instead of resetting them. -/
theorem claim_C9 (a : Arena) :
    arena_free a =
      { regions := [], endIdx := none,
        region_creations := a.region_creations,
        allocations_bigger_than_region_size := a.allocations_bigger_than_region_size } :=
  rfl

/-- Claim C10: `arena_trim` dereferences `a->end` unconditionally, so on an
arena whose `end` is null (freshly constructed, or after `arena_free`) it is
a null-pointer dereference (modelled as `none`) rather than a no-op; on any
arena with a non-null `end` it completes normally. -/
theorem claim_C10 (a : Arena) (h : a.endIdx = none) :
    arena_trim a = none ∧
    arena_trim mkArena = none ∧
    arena_trim (arena_free a) = none ∧
    (∀ b e, b.endIdx = some e → (arena_trim b).isSome = true) := by
  refine ⟨?_, rfl, rfl, ?_⟩
  · unfold arena_trim
    rw [h]
  · intro b e hb
    unfold arena_trim
    rw [hb]
    rfl

/-- Instantiation of claim C10: trimming a fresh arena crashes; trimming an
arena with one region succeeds. -/
theorem claim_C10_witness :
    arena_trim mkArena = none ∧
    (arena_trim (arena_alloc mkArena 8).2).isSome = true := by
  have h := claim_C10 mkArena rfl
  exact ⟨h.1, h.2.2.2 (arena_alloc mkArena 8).2 0 rfl⟩

end ktl
